import Mathlib

/-!
Verification of the HydrowLand real-time voice core (src/src-tauri/src/audio,
src/src-tauri/src/webrtc) against its natural-language specification.

Shallow embedding conventions:
* `f32`/`f64` sample values are modelled as exact rationals (`ℚ`) where the
  code's arithmetic is exact in the regimes the claims exercise, and as real
  numbers (`ℝ`) where square roots and logarithms appear (mixer
  normalization, RMS metering).
* `Vec<f32>` and `VecDeque<f32>` are modelled as `List`; `push_back` /
  `extend_from_slice` append on the right, `pop_front` / `remove(0)` take
  from the left, `Vec::pop` takes from the right.
* `HashMap<String, _>` is modelled as an association `List (String × _)`
  with unique keys (`HashMap` semantics); `entry(..).or_insert_with` either
  updates the unique entry with the key or appends a fresh one.
* External libraries (opus, nnnoiseless, webrtc data channels) are taken as
  parameters of the functions that call them.
-/

/-- Sample rate for all audio operations (`SAMPLE_RATE` in audio/mod.rs). -/
def SAMPLE_RATE : ℕ := 48000

/-- Frame duration in ms (`FRAME_DURATION_MS` in audio/mod.rs). -/
def FRAME_DURATION_MS : ℕ := 20

/-- Samples per 20 ms frame (`SAMPLES_PER_FRAME` in audio/mod.rs):
`48000 * 20 / 1000 = 960`. -/
def SAMPLES_PER_FRAME : ℕ := SAMPLE_RATE * FRAME_DURATION_MS / 1000

/-- Jitter buffer size in frames (`JITTER_BUFFER_FRAMES` in audio/mixer.rs). -/
def JITTER_BUFFER_FRAMES : ℕ := 3

/-- Jitter buffer size in samples (`JITTER_BUFFER_SAMPLES` in audio/mixer.rs). -/
def JITTER_BUFFER_SAMPLES : ℕ := SAMPLES_PER_FRAME * JITTER_BUFFER_FRAMES

/-- Models the drop-oldest trimming loop
`while buf.len() > cap { buf.pop_front(); }` (audio/mixer.rs lines 61-63) and
`while output.len() > cap { output.remove(0); }` (audio/streaming.rs lines
469-471): dropping elements from the front until the length is at most `cap`
is dropping the first `len - cap` elements (`Nat` subtraction saturates, so
a list already within the cap is unchanged). -/
def trim_front {α : Type} (l : List α) (cap : ℕ) : List α :=
  l.drop (l.length - cap)

/-- Linear resampler `resample` from audio/streaming.rs lines 630-652.
`output_len = ceil(len * ratio)`; each output index `i` reads source
position `i / ratio`, interpolating between `samples[idx_floor]` and
`samples.get(idx_ceil).unwrap_or(s1)` where
`idx_ceil = min (idx_floor + 1) (len - 1)` (saturating at 0 like
`saturating_sub`). The `f64` index arithmetic is modelled exactly on `ℚ`. -/
def resample (samples : List ℚ) (r : ℚ) : List ℚ :=
  let outputLen : ℕ := (⌈(samples.length : ℚ) * r⌉).toNat
  (List.range outputLen).map (fun (i : ℕ) =>
    let srcIdx : ℚ := (i : ℚ) / r
    let idxFloor : ℕ := (⌊srcIdx⌋).toNat
    let idxCeil : ℕ := min (idxFloor + 1) (samples.length - 1)
    let frac : ℚ := srcIdx - (idxFloor : ℚ)
    if idxFloor < samples.length then
      let s1 := samples.getD idxFloor 0
      let s2 := samples.getD idxCeil s1
      s1 + (s2 - s1) * frac
    else 0)

/-- State of `AudioStreamingService` (audio/streaming.rs) relevant to the
receive/playback path: `peer_playback` models the `HashMap<String, PeerPlayback>`
keeping each peer's `samples_buffer` (the Opus decoder and `last_activity`
timestamp are external/real-time state not modelled), and `playback_buffer`
models the shared `Arc<Mutex<Vec<f32>>>` drained by the output callback. -/
structure StreamingState where
  peer_playback : List (String × List ℚ)
  playback_buffer : List ℚ

/-- Success path of `receive_peer_audio` (audio/streaming.rs lines 443-474).
`decoded` stands for the result of `playback.decoder.decode(opus_data)?`,
which on success always yields one frame of `SAMPLES_PER_FRAME` samples (see
`opus_frame_lengths`); on decode failure the function returns early changing
nothing that the claims mention. The per-peer `samples_buffer` is extended
with the decoded samples (`extend_from_slice`, no trimming), each sample is
pushed onto the end of the shared playback buffer, and the playback buffer
alone is trimmed from the front while it exceeds `SAMPLES_PER_FRAME * 20`. -/
def StreamingState.receive_peer_audio (st : StreamingState) (id : String)
    (decoded : List ℚ) : StreamingState :=
  let newBuf := ((st.peer_playback.lookup id).getD []) ++ decoded
  { peer_playback :=
      if (st.peer_playback.lookup id).isSome then
        st.peer_playback.map (fun p => if p.1 = id then (p.1, newBuf) else p)
      else st.peer_playback ++ [(id, newBuf)],
    playback_buffer := trim_front (st.playback_buffer ++ decoded) (SAMPLES_PER_FRAME * 20) }

/-- Output callback body of `start_playback` (audio/streaming.rs lines
367-380): for each of the `n` hardware output slots, take
`buffer.pop().unwrap_or(0.0)` — `Vec::pop` removes and returns the LAST
element, yielding 0.0 when the buffer is empty. Returns the emitted samples
(in slot order) and the remaining buffer. -/
def playback_fill : ℕ → List ℚ → List ℚ × List ℚ
  | 0, buf => ([], buf)
  | n + 1, buf =>
    let s := (buf.getLast?).getD 0
    let rest := playback_fill n buf.dropLast
    (s :: rest.1, rest.2)

/-- Iterated receive used to exercise the per-peer buffer growth: `k`
frames of silence received from peer "p" starting from the empty service
state. -/
def receive_iter (k : ℕ) : StreamingState :=
  (fun st => st.receive_peer_audio "p" (List.replicate SAMPLES_PER_FRAME 0))^[k] ⟨[], []⟩

/-- Per-peer audio buffer `PeerBuffer` (audio/mixer.rs lines 12-21):
decoded sample queue (`VecDeque<f32>`, front = oldest), volume multiplier
and local mute flag. The `last_activity` timestamp is wall-clock state with
no bearing on the claims and is not modelled. -/
structure PeerBuffer where
  samples : List ℝ
  volume : ℝ
  muted : Bool

/-- `PeerBuffer::new` (audio/mixer.rs lines 24-31): empty queue, volume
1.0, unmuted. -/
def PeerBuffer.new : PeerBuffer := ⟨[], 1, false⟩

/-- `AudioMixer` (audio/mixer.rs lines 35-39): peer map (modelled as an
association list with the unique-key `HashMap` semantics) plus master
volume. -/
structure AudioMixer where
  peers : List (String × PeerBuffer)
  master_volume : ℝ

/-- Body of `add_peer_samples` for one buffer (audio/mixer.rs lines 55-63):
push every sample onto the back, then pop from the front while the length
exceeds `JITTER_BUFFER_SAMPLES * 2`. -/
def PeerBuffer.push_and_trim (b : PeerBuffer) (s : List ℝ) : PeerBuffer :=
  { b with samples := trim_front (b.samples ++ s) (JITTER_BUFFER_SAMPLES * 2) }

/-- `AudioMixer::add_peer_samples` (audio/mixer.rs lines 50-64):
`entry(peer_id).or_insert_with(PeerBuffer::new)` then push-and-trim. -/
def AudioMixer.add_peer_samples (m : AudioMixer) (id : String) (s : List ℝ) : AudioMixer :=
  if (m.peers.lookup id).isSome then
    { m with peers := m.peers.map (fun p => if p.1 = id then (p.1, p.2.push_and_trim s) else p) }
  else
    { m with peers := m.peers ++ [(id, PeerBuffer.new.push_and_trim s)] }

/-- Normalization factor computed in `mix_into` (audio/mixer.rs lines
83-88): `1 / sqrt(peer_count)` when the map holds more than one peer, else
1.0 — `peer_count` is `self.peers.len()`, the TOTAL map size, counting muted
and underrunning peers too. -/
noncomputable def AudioMixer.norm_factor (m : AudioMixer) : ℝ :=
  if 1 < m.peers.length then (Real.sqrt m.peers.length)⁻¹ else 1

/-- Loop body of `mix_into` for one peer (audio/mixer.rs lines 90-108): a
muted peer, or one buffering fewer than `SAMPLES_PER_FRAME` samples, is
skipped (contributes a frame of zeros, buffer untouched); otherwise exactly
one frame is popped from the front and scaled by `volume * norm`. -/
noncomputable def PeerBuffer.mix_step (b : PeerBuffer) (norm : ℝ) : List ℝ × PeerBuffer :=
  if b.muted then (List.replicate SAMPLES_PER_FRAME 0, b)
  else if b.samples.length < SAMPLES_PER_FRAME then (List.replicate SAMPLES_PER_FRAME 0, b)
  else ((b.samples.take SAMPLES_PER_FRAME).map (fun s => s * b.volume * norm),
        { b with samples := b.samples.drop SAMPLES_PER_FRAME })

/-- Pointwise `output[i] += contribution[i]` accumulation of
audio/mixer.rs line 105. -/
def add_samples (x y : List ℝ) : List ℝ := List.zipWith (· + ·) x y

/-- `f32::clamp(-1.0, 1.0)` of audio/mixer.rs line 112 on exact reals. -/
noncomputable def clamp_unit (x : ℝ) : ℝ := max (-1) (min x 1)

/-- The output buffer of `mix_into` just before master volume and
clamping (audio/mixer.rs lines 76-108): the zero-filled frame plus every
peer's contribution. Addition is commutative and associative, so the
unspecified `HashMap` iteration order is modelled by the list order. -/
noncomputable def AudioMixer.mix_premaster (m : AudioMixer) : List ℝ :=
  (m.peers.map (fun p => (p.2.mix_step m.norm_factor).1)).foldl add_samples
    (List.replicate SAMPLES_PER_FRAME 0)

/-- `AudioMixer::mix_into` (audio/mixer.rs lines 75-114) at the frame
size used by `get_mixed_samples`: zero the output, return it as-is when the
peer map is empty (before the master-volume loop is reached the output is
all zeros and multiplying by the master volume and clamping would not change
it — the early return is kept faithful), otherwise accumulate every peer's
`mix_step` contribution and apply `(s * master_volume).clamp(-1, 1)`.
Returns the output frame and the mixer with the drained buffers. -/
noncomputable def AudioMixer.mix_into (m : AudioMixer) : List ℝ × AudioMixer :=
  if m.peers.length = 0 then (List.replicate SAMPLES_PER_FRAME 0, m)
  else
    (m.mix_premaster.map (fun s => clamp_unit (s * m.master_volume)),
     { m with peers := m.peers.map (fun p => (p.1, (p.2.mix_step m.norm_factor).2)) })

/-- `AudioMixer::get_mixed_samples` (audio/mixer.rs lines 68-72): mix
into a fresh `SAMPLES_PER_FRAME` buffer. -/
noncomputable def AudioMixer.get_mixed_samples (m : AudioMixer) : List ℝ × AudioMixer :=
  m.mix_into

/-- Written from the claim's words, for comparison with `norm_factor`:
the number of peers that are simultaneously active, i.e. unmuted and holding
at least one output frame of buffered samples. -/
def AudioMixer.active_peer_count (m : AudioMixer) : ℕ :=
  (m.peers.filter
    (fun p => !p.2.muted && decide (SAMPLES_PER_FRAME ≤ p.2.samples.length))).length

/-- Concrete mixer with one active peer (constant frame of amplitude 1/2
at gain 1) and one muted peer, used to refute the active-peer-count
normalization claim. -/
noncomputable def c1_mixer : AudioMixer :=
  AudioMixer.mk [("a", ⟨List.replicate SAMPLES_PER_FRAME (1/2), 1, false⟩),
                 ("b", ⟨[], 1, true⟩)] 1

/-- `calculate_rms` (audio/realtime.rs lines 32-38 and audio/streaming.rs
lines 614-620): 0 for an empty slice, else `sqrt(sum(s*s) / len)`. -/
noncomputable def calculate_rms (samples : List ℝ) : ℝ :=
  if samples.isEmpty then 0
  else Real.sqrt (((samples.map (fun s => s * s)).sum) / samples.length)

/-- `AudioMixer::get_peer_level` (audio/mixer.rs lines 163-180): 0 for an
unknown peer or an empty buffer, else the RMS over
`samples.iter().take(min(len, SAMPLES_PER_FRAME))` — the FRONT of the
`VecDeque`, i.e. the oldest buffered samples. Takes `&self`: the buffer is
not consumed. -/
noncomputable def AudioMixer.get_peer_level (m : AudioMixer) (id : String) : ℝ :=
  match m.peers.lookup id with
  | none => 0
  | some b =>
    if b.samples.isEmpty then 0
    else
      Real.sqrt ((((b.samples.take (min b.samples.length SAMPLES_PER_FRAME)).map
        (fun s => s * s)).sum) / (min b.samples.length SAMPLES_PER_FRAME))

/-- Written from the spec's words, for comparison with `get_peer_level`:
the RMS over the MOST RECENT frame's worth of buffered samples — the last
`min(len, SAMPLES_PER_FRAME)` samples, since new samples are pushed onto the
back of the queue. -/
noncomputable def AudioMixer.get_peer_level_spec (m : AudioMixer) (id : String) : ℝ :=
  match m.peers.lookup id with
  | none => 0
  | some b =>
    if b.samples.isEmpty then 0
    else
      Real.sqrt ((((b.samples.drop
          (b.samples.length - min b.samples.length SAMPLES_PER_FRAME)).map
        (fun s => s * s)).sum) / (min b.samples.length SAMPLES_PER_FRAME))

/-- Concrete mixer whose peer "p" buffers one frame of silence (oldest)
followed by one frame of amplitude 1/2 (most recent), separating the
implementation's oldest-frame RMS from the spec's most-recent-frame RMS. -/
noncomputable def c6_mixer : AudioMixer :=
  AudioMixer.mk
    [("p", ⟨List.replicate SAMPLES_PER_FRAME 0 ++ List.replicate SAMPLES_PER_FRAME (1/2),
            1, false⟩)] 1

set_option maxRecDepth 2000 in

/-- `AudioLevelEvent` payload (audio/realtime.rs lines 15-23 and
audio/streaming.rs lines 30-35): normalized level, speaking flag, raw
RMS. -/
structure AudioLevelEvent where
  level : ℝ
  is_speaking : Bool
  rms : ℝ

/-- `SPEAKING_THRESHOLD = 0.02` (audio/realtime.rs line 26,
audio/streaming.rs line 38). -/
noncomputable def SPEAKING_THRESHOLD : ℝ := 1/50

/-- `rms_to_level` (audio/realtime.rs lines 41-47, audio/streaming.rs
lines 623-627): dB conversion of `max rms 1e-10`, normalized from the
[-60 dB, 0 dB] range and clamped to [0, 1]. -/
noncomputable def rms_to_level (rms : ℝ) : ℝ :=
  let db := 20 * Real.logb 10 (max rms (1/10000000000))
  let normalized := (db + 60) / 60
  max 0 (min normalized 1)

/-- Per-frame level computation and event construction of
`process_audio_data` (audio/realtime.rs lines 371-389), identical in
`process_capture` (audio/streaming.rs lines 556-574): `processed` is the
denoised frame; `level` is forced to 0 when muted, `is_speaking` is
`!muted && rms > SPEAKING_THRESHOLD`, and `rms` is emitted as computed. -/
noncomputable def process_frame_event (muted : Bool) (processed : List ℝ) : AudioLevelEvent :=
  let rms := calculate_rms processed
  let level := if muted then 0 else rms_to_level rms
  { level := level
    is_speaking := !muted && decide (SPEAKING_THRESHOLD < rms)
    rms := rms }

/-- The two failure cases of `OpusEncoder::encode` (audio/encoder.rs
lines 41-60): the length-check error string ("Expected ... samples, got
...") and a failure of the external `encode_float` call ("Encoding
failed"). -/
inductive EncodeError where
  | frameLengthMismatch : EncodeError
  | encodingFailed : EncodeError
deriving DecidableEq

/-- `OpusEncoder::encode` (audio/encoder.rs lines 41-60): reject any
input whose length is not exactly `SAMPLES_PER_FRAME`, otherwise run the
external Opus encoder (`ext`; `none` models an `encode_float` error) and
return the written bytes. -/
def OpusEncoder.encode (ext : List ℚ → Option (List ℕ)) (samples : List ℚ) :
    Except EncodeError (List ℕ) :=
  if samples.length ≠ SAMPLES_PER_FRAME then
    Except.error EncodeError.frameLengthMismatch
  else
    match ext samples with
    | some bytes => Except.ok bytes
    | none => Except.error EncodeError.encodingFailed

/-- Effect of `decode_float` writing `written` samples into the
`vec![0.0; SAMPLES_PER_FRAME]` output buffer that `decode`/`decode_lost`
then return whole: the prefix holds the written samples (at most the buffer
size) and the remainder keeps its zero fill. -/
def write_into_frame (written : List ℚ) : List ℚ :=
  (written ++ List.replicate (SAMPLES_PER_FRAME - written.length) 0).take SAMPLES_PER_FRAME

/-- `OpusDecoder::decode` (audio/encoder.rs lines 78-87): run the
external Opus decoder (`ext`; `none` models a `decode_float` error) and
return the full fixed-size output buffer regardless of how many samples were
written. -/
def OpusDecoder.decode (ext : List ℕ → Option (List ℚ)) (data : List ℕ) :
    Except String (List ℚ) :=
  match ext data with
  | some written => Except.ok (write_into_frame written)
  | none => Except.error "Decoding failed"

/-- `OpusDecoder::decode_lost` (audio/encoder.rs lines 90-100):
packet-loss-concealment decode of empty input, returning the full
fixed-size output buffer on success. -/
def OpusDecoder.decode_lost (extLost : Option (List ℚ)) : Except String (List ℚ) :=
  match extLost with
  | some written => Except.ok (write_into_frame written)
  | none => Except.error "PLC decoding failed"

/-- `PeerEntry` (webrtc/mesh_manager.rs lines 21-25): per-peer data
channel (modelled as an abstract handle) and username; the
`RTCPeerConnection` transport is external state represented by the entry
itself, handed to the asynchronous close on removal. -/
structure PeerEntry where
  data_channel : Option ℕ
  username : String

/-- The `peers` map of `MeshManager` (webrtc/mesh_manager.rs lines
28-37), modelled as an association list with unique keys. -/
structure MeshManagerState where
  peers : List (String × PeerEntry)

/-- `MeshManager::remove_peer` (webrtc/mesh_manager.rs lines 393-401):
`HashMap::remove` drops the entry for `id` and returns it; the returned
entry's transport is closed in a spawned task (fire-and-forget), which the
model represents by returning the removed entry. Removing an absent id is a
no-op. -/
def MeshManagerState.remove_peer (st : MeshManagerState) (id : String) :
    MeshManagerState × Option PeerEntry :=
  (⟨st.peers.filter (fun p => p.1 != id)⟩, st.peers.lookup id)

/-- Failure cases of `send_to_peer` (webrtc/mesh_manager.rs lines
340-355): "No data channel for peer ..." when the id has no session or the
session has no channel, and "Failed to send to peer ..." when the transport
send fails. -/
inductive SendError where
  | noDataChannel : SendError
  | sendFailed : SendError
deriving DecidableEq

/-- `MeshManager::send_to_peer` (webrtc/mesh_manager.rs lines 340-355):
`peers.get(id).and_then(|e| e.data_channel).ok_or("No data channel ...")`,
then the external `send_text` (`sendOk`). -/
def MeshManagerState.send_to_peer (sendOk : ℕ → Bool) (st : MeshManagerState)
    (id : String) : Except SendError Unit :=
  match (st.peers.lookup id).bind (fun e => e.data_channel) with
  | none => Except.error SendError.noDataChannel
  | some dc => if sendOk dc then Except.ok () else Except.error SendError.sendFailed

/-- `DENOISE_FRAME_SIZE = 480` (audio/denoise.rs line 11). -/
def DENOISE_FRAME_SIZE : ℕ := 480

/-- `DENOISE_SAMPLE_RATE = 48000` (audio/denoise.rs line 14). -/
def DENOISE_SAMPLE_RATE : ℕ := 48000

/-- `AudioDenoiser::resample_to_48k` (audio/denoise.rs lines 116-143).
Same linear interpolation as `resample` but with `s2 = samples[idx_ceil]`
indexed directly (the index is in range whenever the guard holds and the
input is nonempty, which is the only way the loop runs, so the `getD`
default is never taken). -/
def resample_to_48k (sourceRate : ℕ) (samples : List ℚ) : List ℚ :=
  if sourceRate = DENOISE_SAMPLE_RATE then samples
  else
    let r : ℚ := (DENOISE_SAMPLE_RATE : ℚ) / sourceRate
    let outputLen : ℕ := (⌈(samples.length : ℚ) * r⌉).toNat
    (List.range outputLen).map (fun (i : ℕ) =>
      let srcIdx : ℚ := (i : ℚ) / r
      let idxFloor : ℕ := (⌊srcIdx⌋).toNat
      let idxCeil : ℕ := min (idxFloor + 1) (samples.length - 1)
      let frac : ℚ := srcIdx - (idxFloor : ℚ)
      if idxFloor < samples.length then
        let s1 := samples.getD idxFloor 0
        let s2 := samples.getD idxCeil 0
        s1 + (s2 - s1) * frac
      else 0)

/-- `AudioDenoiser::resample_from_48k` (audio/denoise.rs lines 146-173),
identical to `resample` with ratio `source_rate / 48000`. -/
def resample_from_48k (sourceRate : ℕ) (samples : List ℚ) : List ℚ :=
  if sourceRate = DENOISE_SAMPLE_RATE then samples
  else
    let r : ℚ := (sourceRate : ℚ) / DENOISE_SAMPLE_RATE
    let outputLen : ℕ := (⌈(samples.length : ℚ) * r⌉).toNat
    (List.range outputLen).map (fun (i : ℕ) =>
      let srcIdx : ℚ := (i : ℚ) / r
      let idxFloor : ℕ := (⌊srcIdx⌋).toNat
      let idxCeil : ℕ := min (idxFloor + 1) (samples.length - 1)
      let frac : ℚ := srcIdx - (idxFloor : ℚ)
      if idxFloor < samples.length then
        let s1 := samples.getD idxFloor 0
        let s2 := samples.getD idxCeil s1
        s1 + (s2 - s1) * frac
      else 0)

/-- `AudioDenoiser` (audio/denoise.rs lines 17-30) minus the external
nnnoiseless `DenoiseState` (passed to `process` as the frame transform
`f`). -/
structure AudioDenoiser where
  input_buffer : List ℚ
  output_buffer : List ℚ
  enabled : Bool
  source_sample_rate : ℕ
  resample_buffer : List ℚ

/-- `AudioDenoiser::new` (audio/denoise.rs lines 34-43): empty buffers,
enabled, source rate 48 kHz. -/
def AudioDenoiser.new : AudioDenoiser :=
  ⟨[], [], true, DENOISE_SAMPLE_RATE, []⟩

/-- `AudioDenoiser::set_enabled` (audio/denoise.rs lines 54-61): store
the flag; when disabling, clear the input and output buffers. -/
def AudioDenoiser.set_enabled (d : AudioDenoiser) (e : Bool) : AudioDenoiser :=
  if e then { d with enabled := true }
  else { d with enabled := false, input_buffer := [], output_buffer := [] }

/-- The `while input_buffer.len() >= DENOISE_FRAME_SIZE` loop of
`process` (audio/denoise.rs lines 86-99): repeatedly drain one 480-sample
frame, run it through the external denoiser `f`, and append the result to
the output buffer. Returns the remaining input buffer and the grown output
buffer. -/
def drain_denoise_frames (f : List ℚ → List ℚ) (ib ob : List ℚ) : List ℚ × List ℚ :=
  if _h : DENOISE_FRAME_SIZE ≤ ib.length then
    drain_denoise_frames f (ib.drop DENOISE_FRAME_SIZE) (ob ++ f (ib.take DENOISE_FRAME_SIZE))
  else (ib, ob)
termination_by ib.length
decreasing_by
  simp only [List.length_drop]
  have : 0 < DENOISE_FRAME_SIZE := by norm_num [DENOISE_FRAME_SIZE]
  omega

/-- `AudioDenoiser::process` (audio/denoise.rs lines 70-113): when
disabled, return the input unchanged without touching any state; when
enabled, resample to 48 kHz if the source rate differs, accumulate into the
input buffer, process complete 480-sample frames through `f`, and return
the drained output (resampled back if needed), clearing the output
buffer. -/
def AudioDenoiser.process (f : List ℚ → List ℚ) (d : AudioDenoiser)
    (samples : List ℚ) : List ℚ × AudioDenoiser :=
  if !d.enabled then (samples, d)
  else
    let samples48 :=
      if d.source_sample_rate ≠ DENOISE_SAMPLE_RATE then
        resample_to_48k d.source_sample_rate samples
      else samples
    let drained := drain_denoise_frames f (d.input_buffer ++ samples48) d.output_buffer
    if d.source_sample_rate ≠ DENOISE_SAMPLE_RATE then
      (resample_from_48k d.source_sample_rate drained.2,
       { d with input_buffer := drained.1, output_buffer := [] })
    else
      (drained.2, { d with input_buffer := drained.1, output_buffer := [] })

/-- Sequential processing of a list of capture buffers, threading the
denoiser state; returns the list of per-call outputs and the final
state. -/
def AudioDenoiser.process_all (f : List ℚ → List ℚ) (d : AudioDenoiser) :
    List (List ℚ) → List (List ℚ) × AudioDenoiser
  | [] => ([], d)
  | c :: cs =>
    let r := d.process f c
    let rest := r.2.process_all f cs
    (r.1 :: rest.1, rest.2)

/-- Length law of the resampler: exactly `ceil(len * ratio)` output
samples. -/
theorem resample_length (s : List ℚ) (r : ℚ) :
    (resample s r).length = (⌈(s.length : ℚ) * r⌉).toNat := by
  simp [resample]

/-- At ratio 1 every source index is integral with zero fractional part,
so the resampler copies its input. -/
theorem resample_ratio_one (s : List ℚ) : resample s 1 = s := by
  apply List.ext_getElem
  · simp [resample]
  · intro i h1 h2
    simp only [resample, mul_one, Int.ceil_natCast, Int.toNat_natCast,
      List.getElem_map, List.getElem_range, div_one, Int.floor_natCast]
    rw [if_pos h2, List.getD_eq_getElem _ _ h2]
    ring

/-- On a single-sample input with positive ratio every output index
floors to source index 0, so the output is `ceil(ratio)` copies of that
sample. -/
theorem resample_singleton (x : ℚ) (r : ℚ) (hr : 0 < r) :
    resample [x] r = List.replicate (⌈r⌉).toNat x := by
  apply List.ext_getElem
  · simp [resample]
  · intro i h1 h2
    have hlen : i < (⌈r⌉).toNat := by
      simpa [resample] using h1
    have hiq : (i : ℚ) < r := by
      have := (Int.lt_toNat).mp hlen
      exact_mod_cast Int.lt_ceil.mp this
    have hfloor : ⌊(i : ℚ) / r⌋ = 0 := by
      rw [Int.floor_eq_zero_iff]
      constructor
      · positivity
      · exact div_lt_one hr |>.mpr hiq
    simp only [resample, List.length_singleton, one_mul, List.getElem_map,
      List.getElem_range, hfloor, Int.toNat_zero, List.getElem_replicate]
    norm_num

/-- C5 (amended): the resampler produces exactly `ceil(len * ratio)`
output samples by linear interpolation; at ratio 1.0 it is the identity on
any input; at input length 1 and positive ratio it produces `ceil(ratio)`
copies of the single input sample — a no-op copy exactly when
`ceil(ratio) = 1`, not for every ratio as claimed. -/
theorem resample_behaviour (s : List ℚ) (x r : ℚ) (hr : 0 < r) :
    resample s 1 = s ∧
    (resample s r).length = (⌈(s.length : ℚ) * r⌉).toNat ∧
    resample [x] r = List.replicate (⌈r⌉).toNat x :=
  ⟨resample_ratio_one s, resample_length s r, resample_singleton x r hr⟩

/-- Witness for `resample_behaviour` at `s = [2, 4]`, `x = 5`,
`r = 1/2`. -/
theorem resample_behaviour_witness :
    (0 : ℚ) < 1/2 ∧
    (resample [2, 4] 1 = [2, 4] ∧
     (resample [2, 4] (1/2)).length = (⌈(([2, 4] : List ℚ).length : ℚ) * (1/2)⌉).toNat ∧
     resample [(5 : ℚ)] (1/2) = List.replicate (⌈(1 : ℚ)/2⌉).toNat 5) :=
  ⟨by norm_num, resample_behaviour [2, 4] 5 (1/2) (by norm_num)⟩

/-- C5 counterexample: on the length-1 input `[1]` with ratio 2 the
resampler returns `[1, 1]`, which is not a no-op copy of the input,
refuting the claim that input length 1 always gives the identity. -/
theorem resample_singleton_not_identity :
    resample [(1 : ℚ)] 2 = [1, 1] ∧ [(1 : ℚ), 1] ≠ [(1 : ℚ)] := by
  constructor
  · have h : (⌈(([1] : List ℚ).length : ℚ) * 2⌉).toNat = 2 := by norm_num; rfl
    simp only [resample, h]
    norm_num [List.range_succ]
  · simp

/-- Trimming a list already within the cap is the identity. -/
theorem trim_front_of_le {α : Type} (l : List α) (cap : ℕ) (h : l.length ≤ cap) :
    trim_front l cap = l := by
  simp [trim_front, Nat.sub_eq_zero_of_le h]

/-- Length after front-trimming: `min len cap`. -/
theorem trim_front_length {α : Type} (l : List α) (cap : ℕ) :
    (trim_front l cap).length = min l.length cap := by
  simp [trim_front]
  omega

/-- Front-trimming drops only the oldest elements: the result is a
suffix of the original list. -/
theorem trim_front_suffix {α : Type} (l : List α) (cap : ℕ) :
    (trim_front l cap).IsSuffix l :=
  List.drop_suffix _ _

/-- Front-trimming a constant list keeps `min n cap` copies. -/
theorem trim_front_replicate {α : Type} (n cap : ℕ) (x : α) :
    trim_front (List.replicate n x) cap = List.replicate (min n cap) x := by
  simp only [trim_front, List.drop_replicate, List.length_replicate]
  congr 1
  omega

/-- Draining exactly the buffer's length emits the buffer in reverse
order and leaves it empty. -/
theorem playback_fill_all (b : List ℚ) : playback_fill b.length b = (b.reverse, []) := by
  induction b using List.reverseRecOn with
  | nil => simp [playback_fill]
  | append_singleton l a ih =>
    rw [List.length_append, List.length_singleton]
    simp [playback_fill, List.getLast?_concat, List.dropLast_concat, ih]

/-- Filling from an empty buffer substitutes silence for every slot. -/
theorem playback_fill_empty (n : ℕ) : playback_fill n [] = (List.replicate n 0, []) := by
  induction n with
  | zero => simp [playback_fill]
  | succ n ih => simp [playback_fill, ih, List.replicate_succ]

/-- C10: a received decoded frame is appended to the end of the shared
playback buffer (shown here below the cap, where no trimming occurs), the
output callback fills each hardware slot by removing the last-appended
sample and substitutes silence for every slot when the buffer is empty, so
draining a buffer emits its contents in the reverse of arrival order. -/
theorem playback_lifo (st : StreamingState) (id : String) (d b : List ℚ) (n : ℕ)
    (hfit : st.playback_buffer.length + d.length ≤ SAMPLES_PER_FRAME * 20) :
    (st.receive_peer_audio id d).playback_buffer = st.playback_buffer ++ d ∧
    playback_fill b.length b = (b.reverse, []) ∧
    playback_fill n [] = (List.replicate n 0, []) := by
  refine ⟨?_, playback_fill_all b, playback_fill_empty n⟩
  simp only [StreamingState.receive_peer_audio]
  exact trim_front_of_le _ _ (by simpa using hfit)

/-- Witness for `playback_lifo` on a two-sample buffer receiving one more
sample. -/
theorem playback_lifo_witness :
    ((StreamingState.mk [] [1, 2]).playback_buffer.length + ([3] : List ℚ).length
       ≤ SAMPLES_PER_FRAME * 20) ∧
    (((StreamingState.mk [] [1, 2]).receive_peer_audio "q" [3]).playback_buffer
       = [1, 2] ++ [3] ∧
     playback_fill ([1, 2, 3] : List ℚ).length [1, 2, 3] = (([1, 2, 3] : List ℚ).reverse, []) ∧
     playback_fill 2 [] = (List.replicate 2 0, [])) := by
  have h : ((StreamingState.mk [] [1, 2]).playback_buffer.length + ([3] : List ℚ).length
      ≤ SAMPLES_PER_FRAME * 20) := by
    norm_num [SAMPLES_PER_FRAME, SAMPLE_RATE, FRAME_DURATION_MS]
  exact ⟨h, playback_lifo _ "q" [3] [1, 2, 3] 2 h⟩

/-- The frame-size constant evaluates to 960 samples. -/
theorem spf_eq : SAMPLES_PER_FRAME = 960 := by
  norm_num [SAMPLES_PER_FRAME, SAMPLE_RATE, FRAME_DURATION_MS]

/-- After `k ≥ 1` silent frames received from "p", the per-peer samples
buffer holds `SAMPLES_PER_FRAME * k` samples (never trimmed) while the
shared playback buffer is capped at 20 frames. -/
theorem receive_iter_spec (k : ℕ) (hk : 1 ≤ k) :
    (receive_iter k).peer_playback
      = [("p", List.replicate (SAMPLES_PER_FRAME * k) 0)] ∧
    (receive_iter k).playback_buffer
      = List.replicate (min (SAMPLES_PER_FRAME * k) (SAMPLES_PER_FRAME * 20)) 0 := by
  induction k with
  | zero => omega
  | succ k ih =>
    have hstep : receive_iter (k + 1)
        = (receive_iter k).receive_peer_audio "p" (List.replicate SAMPLES_PER_FRAME 0) := by
      simp [receive_iter, Function.iterate_succ_apply']
    rcases Nat.eq_or_lt_of_le hk with h1 | h1
    · have hk0 : k = 0 := by omega
      subst hk0
      have hzero : receive_iter 0 = ⟨[], []⟩ := rfl
      rw [hstep, hzero]
      constructor
      · simp [StreamingState.receive_peer_audio, List.lookup]
      · simp only [StreamingState.receive_peer_audio, List.nil_append, trim_front_replicate]
        norm_num
    · have hk1 : 1 ≤ k := by omega
      obtain ⟨h1p, h2p⟩ := ih hk1
      rw [hstep]
      constructor
      · simp only [StreamingState.receive_peer_audio, h1p, List.lookup, beq_self_eq_true,
          Option.isSome_some, if_true, List.map_cons, List.map_nil, if_pos rfl,
          Option.getD_some]
        rw [← List.replicate_add, ← Nat.mul_succ]
      · simp only [StreamingState.receive_peer_audio, h2p]
        rw [← List.replicate_add, trim_front_replicate]
        refine congrArg (fun n => List.replicate n (0 : ℚ)) ?_
        rw [spf_eq]
        omega

/-- C3 counterexample: after 21 received frames the streaming service's
per-peer samples buffer for "p" holds 20160 samples, exceeding the claimed
cap of roughly 20 frames (`SAMPLES_PER_FRAME * 20 = 19200`): this per-peer
buffer reachable through the receive operation is never trimmed. -/
theorem receive_buffer_uncapped :
    (receive_iter 21).peer_playback.lookup "p" = some (List.replicate 20160 0) ∧
    SAMPLES_PER_FRAME * 20 < 20160 := by
  obtain ⟨h1, _⟩ := receive_iter_spec 21 (by norm_num)
  constructor
  · rw [h1]
    simp only [List.lookup, beq_self_eq_true]
    rw [spf_eq]
  · rw [spf_eq]
    norm_num

/-- One push-and-trim leaves at most `JITTER_BUFFER_SAMPLES * 2` samples
in a mixer peer buffer. -/
theorem push_and_trim_length_le (b : PeerBuffer) (s : List ℝ) :
    (b.push_and_trim s).samples.length ≤ JITTER_BUFFER_SAMPLES * 2 := by
  simp only [PeerBuffer.push_and_trim, trim_front_length]
  exact min_le_right _ _

/-- C3 (amended): the mixer's per-peer jitter buffers are capped at twice
the 3-frame target depth (`JITTER_BUFFER_SAMPLES * 2 = 5760` samples, not
roughly 20 frames), trimmed by dropping the oldest samples from the front;
in the streaming service only the SHARED playback buffer is capped (at 20
frames, also drop-oldest) — the per-peer `samples_buffer` is not trimmed at
all (see the counterexample `receive_buffer_uncapped`). -/
theorem jitter_buffer_caps (m : AudioMixer) (id : String) (s : List ℝ)
    (st : StreamingState) (pid : String) (d : List ℚ)
    (hinv : ∀ p ∈ m.peers, p.2.samples.length ≤ JITTER_BUFFER_SAMPLES * 2) :
    (∀ p ∈ (m.add_peer_samples id s).peers,
        p.2.samples.length ≤ JITTER_BUFFER_SAMPLES * 2) ∧
    (∀ (b : PeerBuffer) (s2 : List ℝ),
        ((b.push_and_trim s2).samples).IsSuffix (b.samples ++ s2)) ∧
    (st.receive_peer_audio pid d).playback_buffer.length ≤ SAMPLES_PER_FRAME * 20 := by
  refine ⟨?_, ?_, ?_⟩
  case refine_2 =>
    intro b s2
    simp only [PeerBuffer.push_and_trim]
    exact trim_front_suffix _ _
  · intro p hp
    unfold AudioMixer.add_peer_samples at hp
    by_cases hsome : (m.peers.lookup id).isSome
    · rw [if_pos hsome] at hp
      simp only [List.mem_map] at hp
      obtain ⟨q, hq, rfl⟩ := hp
      by_cases hqid : q.1 = id
      · rw [if_pos hqid]
        exact push_and_trim_length_le _ _
      · rw [if_neg hqid]
        exact hinv q hq
    · rw [if_neg hsome] at hp
      rcases List.mem_append.mp hp with hl | hr
      · exact hinv p hl
      · rcases List.mem_singleton.mp hr with rfl
        exact push_and_trim_length_le _ _
  · simp only [StreamingState.receive_peer_audio]
    rw [trim_front_length]
    exact min_le_right _ _

/-- Witness for `jitter_buffer_caps` on an empty mixer receiving one
sample and an empty streaming state receiving one sample. -/
theorem jitter_buffer_caps_witness :
    (∀ p ∈ (AudioMixer.mk [] 1).peers, p.2.samples.length ≤ JITTER_BUFFER_SAMPLES * 2) ∧
    ((∀ p ∈ ((AudioMixer.mk [] 1).add_peer_samples "a" [5]).peers,
        p.2.samples.length ≤ JITTER_BUFFER_SAMPLES * 2) ∧
     (∀ (b : PeerBuffer) (s2 : List ℝ),
        ((b.push_and_trim s2).samples).IsSuffix (b.samples ++ s2)) ∧
     ((StreamingState.mk [] []).receive_peer_audio "p" [1]).playback_buffer.length
        ≤ SAMPLES_PER_FRAME * 20) := by
  have h : ∀ p ∈ (AudioMixer.mk [] 1).peers,
      p.2.samples.length ≤ JITTER_BUFFER_SAMPLES * 2 := by simp
  exact ⟨h, jitter_buffer_caps _ "a" [5] _ "p" [1] h⟩

/-- A muted or under-filled peer's mix step contributes a frame of zeros
and leaves the buffer untouched. -/
theorem mix_step_skip (b : PeerBuffer) (norm : ℝ)
    (hskip : b.muted = true ∨ b.samples.length < SAMPLES_PER_FRAME) :
    b.mix_step norm = (List.replicate SAMPLES_PER_FRAME 0, b) := by
  rcases hskip with h | h
  · simp [PeerBuffer.mix_step, h]
  · simp [PeerBuffer.mix_step, h, ite_self]

/-- C4: a peer that is muted or buffers fewer samples than one output
frame contributes exactly a frame of zeros to the mix and its buffered
samples survive the call unchanged — the same `(id, buffer)` pair is still
in the mixer returned by `mix_into`, available for the next call. -/
theorem mix_skips_inactive (m : AudioMixer) (id : String) (b : PeerBuffer)
    (hmem : (id, b) ∈ m.peers)
    (hskip : b.muted = true ∨ b.samples.length < SAMPLES_PER_FRAME) :
    b.mix_step m.norm_factor = (List.replicate SAMPLES_PER_FRAME 0, b) ∧
    (id, b) ∈ (m.mix_into).2.peers := by
  have hstep := mix_step_skip b m.norm_factor hskip
  refine ⟨hstep, ?_⟩
  have hne : ¬ m.peers.length = 0 := by
    intro h0
    rw [List.length_eq_zero] at h0
    rw [h0] at hmem
    simp at hmem
  simp only [AudioMixer.mix_into, if_neg hne]
  refine List.mem_map.mpr ⟨(id, b), hmem, ?_⟩
  simp [hstep]

/-- Witness for `mix_skips_inactive` on a muted peer holding one
sample. -/
theorem mix_skips_inactive_witness :
    ((("a" : String), (⟨[5], 1, true⟩ : PeerBuffer)) ∈
        (AudioMixer.mk [("a", ⟨[5], 1, true⟩)] 1).peers) ∧
    ((⟨[5], 1, true⟩ : PeerBuffer).mix_step (AudioMixer.mk [("a", ⟨[5], 1, true⟩)] 1).norm_factor
        = (List.replicate SAMPLES_PER_FRAME 0, (⟨[5], 1, true⟩ : PeerBuffer)) ∧
     (("a", (⟨[5], 1, true⟩ : PeerBuffer)) ∈
        ((AudioMixer.mk [("a", ⟨[5], 1, true⟩)] 1).mix_into).2.peers)) := by
  have hmem : (("a" : String), (⟨[5], 1, true⟩ : PeerBuffer)) ∈
      (AudioMixer.mk [("a", ⟨[5], 1, true⟩)] 1).peers := by simp
  exact ⟨hmem, mix_skips_inactive _ "a" _ hmem (Or.inl rfl)⟩

/-- Pointwise addition of constant frames. -/
theorem zipWith_add_replicate (n : ℕ) (x y : ℝ) :
    add_samples (List.replicate n x) (List.replicate n y) = List.replicate n (x + y) := by
  induction n with
  | zero => simp [add_samples]
  | succ k ih =>
    simp only [List.replicate_succ, add_samples, List.zipWith_cons_cons]
    rw [← add_samples, ih]

/-- Accumulating `L.length` constant frames of value `c` over a constant
base adds `L.length * c` to every sample. -/
theorem foldl_add_samples_replicate (L : List (List ℝ)) (c x : ℝ) (n : ℕ)
    (h : ∀ l ∈ L, l = List.replicate n c) :
    L.foldl add_samples (List.replicate n x) = List.replicate n (x + L.length * c) := by
  induction L generalizing x with
  | nil => simp
  | cons a t ih =>
    rw [List.foldl_cons, h a (List.mem_cons_self a t), zipWith_add_replicate,
      ih (x + c) (fun l hl => h l (List.mem_cons_of_mem a hl))]
    congr 1
    simp only [List.length_cons]
    push_cast
    ring

/-- C1 (amended): when the mixer map holds exactly `n ≥ 2` peers, all
unmuted at gain 1.0 and each holding one constant frame of amplitude `a`,
the normalization factor is `1 / sqrt(n)` and one mix call produces
`a * n / sqrt(n)` in every sample before master volume, after which master
volume and the clamp to [-1, 1] are applied. The factor is
`1 / sqrt(total peer-map size)` — counting muted and underrunning peers —
whenever the map holds more than one peer, not `1 / sqrt(active peer
count)` as claimed (see `norm_factor_ignores_active_count`). -/
theorem mix_uniform_active (m : AudioMixer) (a : ℝ) (n : ℕ)
    (hn : 2 ≤ n) (hlen : m.peers.length = n)
    (hall : ∀ p ∈ m.peers, p.2 = ⟨List.replicate SAMPLES_PER_FRAME a, 1, false⟩) :
    m.norm_factor = (Real.sqrt n)⁻¹ ∧
    m.mix_premaster = List.replicate SAMPLES_PER_FRAME (a * n / Real.sqrt n) ∧
    (m.mix_into).1 = List.replicate SAMPLES_PER_FRAME
        (clamp_unit ((a * n / Real.sqrt n) * m.master_volume)) := by
  have hnorm : m.norm_factor = (Real.sqrt n)⁻¹ := by
    rw [AudioMixer.norm_factor, if_pos (by omega : 1 < m.peers.length), hlen]
  have hcontrib : ∀ l ∈ m.peers.map (fun p => (p.2.mix_step m.norm_factor).1),
      l = List.replicate SAMPLES_PER_FRAME (a * 1 * (Real.sqrt n)⁻¹) := by
    intro l hl
    obtain ⟨p, hp, rfl⟩ := List.mem_map.mp hl
    rw [hall p hp]
    simp [PeerBuffer.mix_step, hnorm, List.take_replicate]
  have hpre : m.mix_premaster
      = List.replicate SAMPLES_PER_FRAME (a * n / Real.sqrt n) := by
    rw [AudioMixer.mix_premaster, foldl_add_samples_replicate _ _ _ _ hcontrib]
    rw [List.length_map, hlen]
    congr 1
    rw [div_eq_mul_inv]
    ring
  refine ⟨hnorm, hpre, ?_⟩
  have hne : ¬ m.peers.length = 0 := by omega
  simp only [AudioMixer.mix_into, if_neg hne, hpre, List.map_replicate]

/-- Witness for `mix_uniform_active` with two silent active peers. -/
theorem mix_uniform_active_witness :
    (2 ≤ 2) ∧
    ((AudioMixer.mk [("a", ⟨List.replicate SAMPLES_PER_FRAME 0, 1, false⟩),
        ("b", ⟨List.replicate SAMPLES_PER_FRAME 0, 1, false⟩)] 1).peers.length = 2) ∧
    (∀ p ∈ (AudioMixer.mk [("a", ⟨List.replicate SAMPLES_PER_FRAME 0, 1, false⟩),
        ("b", ⟨List.replicate SAMPLES_PER_FRAME 0, 1, false⟩)] 1).peers,
      p.2 = ⟨List.replicate SAMPLES_PER_FRAME (0 : ℝ), 1, false⟩) ∧
    ((AudioMixer.mk [("a", ⟨List.replicate SAMPLES_PER_FRAME 0, 1, false⟩),
        ("b", ⟨List.replicate SAMPLES_PER_FRAME 0, 1, false⟩)] 1).norm_factor
        = (Real.sqrt 2)⁻¹ ∧
     (AudioMixer.mk [("a", ⟨List.replicate SAMPLES_PER_FRAME 0, 1, false⟩),
        ("b", ⟨List.replicate SAMPLES_PER_FRAME 0, 1, false⟩)] 1).mix_premaster
        = List.replicate SAMPLES_PER_FRAME ((0 : ℝ) * 2 / Real.sqrt 2) ∧
     ((AudioMixer.mk [("a", ⟨List.replicate SAMPLES_PER_FRAME 0, 1, false⟩),
        ("b", ⟨List.replicate SAMPLES_PER_FRAME 0, 1, false⟩)] 1).mix_into).1
        = List.replicate SAMPLES_PER_FRAME (clamp_unit (((0 : ℝ) * 2 / Real.sqrt 2) * 1))) := by
  have hall : ∀ p ∈ (AudioMixer.mk [("a", ⟨List.replicate SAMPLES_PER_FRAME 0, 1, false⟩),
      ("b", ⟨List.replicate SAMPLES_PER_FRAME 0, 1, false⟩)] 1).peers,
      p.2 = ⟨List.replicate SAMPLES_PER_FRAME (0 : ℝ), 1, false⟩ := by
    intro p hp
    simp only [List.mem_cons, List.not_mem_nil, or_false] at hp
    rcases hp with rfl | rfl <;> rfl
  have h := mix_uniform_active _ 0 2 (le_refl 2) (by simp) hall
  exact ⟨le_refl 2, by simp, hall, by simpa using h⟩

/-- C1 counterexample: in `c1_mixer` exactly one peer is active (unmuted
with a full frame buffered), so the claimed normalization factor is 1.0,
but the implementation divides by `sqrt` of the total map size and applies
`1 / sqrt 2 ≠ 1`. -/
theorem norm_factor_ignores_active_count :
    c1_mixer.active_peer_count = 1 ∧
    c1_mixer.norm_factor = (Real.sqrt 2)⁻¹ ∧
    (Real.sqrt 2)⁻¹ ≠ 1 := by
  refine ⟨?_, ?_, ?_⟩
  · simp [c1_mixer, AudioMixer.active_peer_count, List.filter]
  · rw [AudioMixer.norm_factor, if_pos]
    · norm_num [c1_mixer]
    · simp [c1_mixer]
  · have h1 : 1 < Real.sqrt 2 := by
      rw [show (1 : ℝ) = Real.sqrt 1 from (Real.sqrt_one).symm]
      exact Real.sqrt_lt_sqrt (by norm_num) (by norm_num)
    exact ne_of_lt (inv_lt_one_of_one_lt₀ h1)

/-- C6 (amended): the per-peer level query returns 0 for an unknown peer
and for an empty buffer, and otherwise the RMS over the OLDEST up-to-one-
frame's worth of buffered samples (the front of the queue, `take
SAMPLES_PER_FRAME`), not the most recent; being `&self`-pure it consumes
nothing. -/
theorem get_peer_level_oldest (m : AudioMixer) (id : String) :
    (m.peers.lookup id = none → m.get_peer_level id = 0) ∧
    (∀ b, m.peers.lookup id = some b →
      m.get_peer_level id = calculate_rms (b.samples.take SAMPLES_PER_FRAME)) := by
  constructor
  · intro h
    simp [AudioMixer.get_peer_level, h]
  · intro b h
    simp only [AudioMixer.get_peer_level, h]
    by_cases he : b.samples.isEmpty
    · have hb : b.samples = [] := List.isEmpty_iff.mp he
      simp [hb, calculate_rms]
    · rw [if_neg he]
      have hne : b.samples ≠ [] := by
        intro hb
        rw [hb] at he
        exact he rfl
      have htake : b.samples.take (min b.samples.length SAMPLES_PER_FRAME)
          = b.samples.take SAMPLES_PER_FRAME := by
        rcases le_or_lt b.samples.length SAMPLES_PER_FRAME with hle | hlt
        · rw [min_eq_left hle, List.take_length, List.take_of_length_le hle]
        · rw [min_eq_right (le_of_lt hlt)]
      have hnemp : (b.samples.take SAMPLES_PER_FRAME).isEmpty = false := by
        simp [List.isEmpty_iff, List.take_eq_nil_iff, hne, spf_eq]
      simp only [calculate_rms, hnemp, Bool.false_eq_true, if_false]
      rw [htake]
      congr 1
      rw [List.length_take]
      congr 1
      norm_cast
      exact Nat.min_comm _ _

/-- Witness for `get_peer_level_oldest` on a one-peer mixer, querying
both an unknown id and the stored id. -/
theorem get_peer_level_oldest_witness :
    ((AudioMixer.mk [("p", ⟨[1, 2], 1, false⟩)] 1).peers.lookup "q" = none) ∧
    ((AudioMixer.mk [("p", ⟨[1, 2], 1, false⟩)] 1).get_peer_level "q" = 0) ∧
    ((AudioMixer.mk [("p", ⟨[1, 2], 1, false⟩)] 1).peers.lookup "p"
       = some ⟨[1, 2], 1, false⟩) ∧
    ((AudioMixer.mk [("p", ⟨[1, 2], 1, false⟩)] 1).get_peer_level "p"
       = calculate_rms ((⟨[1, 2], 1, false⟩ : PeerBuffer).samples.take SAMPLES_PER_FRAME)) := by
  have hq : (AudioMixer.mk [("p", ⟨[1, 2], 1, false⟩)] 1).peers.lookup "q" = none := by
    simp [List.lookup]
  have hp : (AudioMixer.mk [("p", ⟨[1, 2], 1, false⟩)] 1).peers.lookup "p"
      = some ⟨[1, 2], 1, false⟩ := by
    simp [List.lookup]
  exact ⟨hq, (get_peer_level_oldest _ "q").1 hq, hp,
    (get_peer_level_oldest _ "p").2 _ hp⟩

/-- Evaluation of the spec-side level query on a known nonempty
buffer. -/
theorem get_peer_level_spec_eval (m : AudioMixer) (id : String) (b : PeerBuffer)
    (h : m.peers.lookup id = some b) (hne : b.samples.isEmpty = false) :
    m.get_peer_level_spec id
      = Real.sqrt ((((b.samples.drop
            (b.samples.length - min b.samples.length SAMPLES_PER_FRAME)).map
          (fun s => s * s)).sum) / (min b.samples.length SAMPLES_PER_FRAME)) := by
  simp only [AudioMixer.get_peer_level_spec, h, hne, Bool.false_eq_true, if_false]

/-- C6 counterexample: for a peer whose buffer holds a frame of silence
(oldest) followed by a frame of amplitude 1/2 (most recent), the
implementation reports level 0 while the RMS over the most recent frame's
worth is 1/2. -/
theorem peer_level_not_most_recent :
    c6_mixer.get_peer_level "p" = 0 ∧
    c6_mixer.get_peer_level_spec "p" = 1/2 ∧
    (0 : ℝ) ≠ 1/2 := by
  have hlen : ((List.replicate SAMPLES_PER_FRAME (0 : ℝ))
      ++ List.replicate SAMPLES_PER_FRAME (1/2 : ℝ)).length
      = SAMPLES_PER_FRAME + SAMPLES_PER_FRAME := by simp
  have hmin : min (SAMPLES_PER_FRAME + SAMPLES_PER_FRAME) SAMPLES_PER_FRAME
      = SAMPLES_PER_FRAME := by omega
  have htake : ((List.replicate SAMPLES_PER_FRAME (0 : ℝ))
      ++ List.replicate SAMPLES_PER_FRAME (1/2 : ℝ)).take SAMPLES_PER_FRAME
      = List.replicate SAMPLES_PER_FRAME 0 :=
    List.take_left' (by simp)
  have hdrop : ((List.replicate SAMPLES_PER_FRAME (0 : ℝ))
      ++ List.replicate SAMPLES_PER_FRAME (1/2 : ℝ)).drop
        ((SAMPLES_PER_FRAME + SAMPLES_PER_FRAME) - SAMPLES_PER_FRAME)
      = List.replicate SAMPLES_PER_FRAME (1/2) := by
    rw [show SAMPLES_PER_FRAME + SAMPLES_PER_FRAME - SAMPLES_PER_FRAME
      = SAMPLES_PER_FRAME by omega]
    exact List.drop_left' (by simp)
  have hspf0 : (SAMPLES_PER_FRAME : ℝ) ≠ 0 := by rw [spf_eq]; norm_num
  have hempty : ((List.replicate SAMPLES_PER_FRAME (0 : ℝ))
      ++ List.replicate SAMPLES_PER_FRAME (1/2 : ℝ)).isEmpty = false := by
    rw [List.isEmpty_eq_false]
    simp only [ne_eq, List.append_eq_nil, List.replicate_eq_nil_iff, not_and]
    intro h
    exfalso
    rw [spf_eq] at h
    exact absurd h (by norm_num)
  refine ⟨?_, ?_, by norm_num⟩
  · simp only [c6_mixer, AudioMixer.get_peer_level, List.lookup, beq_self_eq_true,
      hlen, hmin, htake, hempty, Bool.false_eq_true, if_false]
    rw [List.map_replicate]
    norm_num
  · have hlook : c6_mixer.peers.lookup "p"
        = some ⟨List.replicate SAMPLES_PER_FRAME (0 : ℝ)
             ++ List.replicate SAMPLES_PER_FRAME (1/2 : ℝ), 1, false⟩ := by
      simp only [c6_mixer, List.lookup, beq_self_eq_true, if_true]
    rw [get_peer_level_spec_eval c6_mixer "p" _ hlook hempty]
    simp only [hlen, hmin]
    rw [hdrop]
    rw [List.map_replicate, List.sum_replicate, nsmul_eq_mul]
    rw [show (1/2 : ℝ) * (1/2) = 1/4 by norm_num]
    have hcancel : (SAMPLES_PER_FRAME : ℝ) * (1/4) / SAMPLES_PER_FRAME = 1/4 := by
      field_simp
      ring
    rw [hcancel, show (1/4 : ℝ) = (1/2)^2 by norm_num]
    exact Real.sqrt_sq (by norm_num)

/-- C2 (amended): for every frame processed while muted, the emitted
level-update event has `level = 0` and `is_speaking = false` regardless of
input loudness, but its `rms` field carries the actual RMS of the processed
frame — it is not zeroed. -/
theorem muted_level_event (processed : List ℝ) :
    (process_frame_event true processed).level = 0 ∧
    (process_frame_event true processed).is_speaking = false ∧
    (process_frame_event true processed).rms = calculate_rms processed := by
  simp [process_frame_event]

/-- RMS of a nonempty constant signal is the absolute amplitude. -/
theorem calculate_rms_replicate (n : ℕ) (hn : n ≠ 0) (x : ℝ) :
    calculate_rms (List.replicate n x) = |x| := by
  have hne : (List.replicate n x).isEmpty = false := by
    rw [List.isEmpty_eq_false]
    simp [List.replicate_eq_nil_iff, hn]
  simp only [calculate_rms, hne, Bool.false_eq_true, if_false,
    List.map_replicate, List.sum_replicate, nsmul_eq_mul, List.length_replicate]
  have hnr : (n : ℝ) ≠ 0 := Nat.cast_ne_zero.mpr hn
  rw [mul_div_assoc, mul_comm, div_mul_cancel₀ _ hnr]
  exact Real.sqrt_mul_self_eq_abs x

/-- C2 counterexample: a muted frame of constant amplitude 1/2 produces
an event with `rms = 1/2 ≠ 0` (and `level = 0`), refuting the claim that
both `level` and `rms` are 0 while muted. -/
theorem muted_event_rms_not_zeroed :
    (process_frame_event true (List.replicate SAMPLES_PER_FRAME (1/2))).rms = 1/2 ∧
    ((1 : ℝ)/2) ≠ 0 ∧
    (process_frame_event true (List.replicate SAMPLES_PER_FRAME (1/2))).level = 0 := by
  refine ⟨?_, by norm_num, by simp [process_frame_event]⟩
  have h : (process_frame_event true (List.replicate SAMPLES_PER_FRAME (1/2))).rms
      = calculate_rms (List.replicate SAMPLES_PER_FRAME (1/2)) := by
    simp [process_frame_event]
  rw [h, calculate_rms_replicate SAMPLES_PER_FRAME (by rw [spf_eq]; norm_num)]
  norm_num

/-- The decoder's output buffer always has exactly one frame of
samples. -/
theorem write_into_frame_length (written : List ℚ) :
    (write_into_frame written).length = SAMPLES_PER_FRAME := by
  simp [write_into_frame]
  omega

/-- C8: encode returns the frame-length-mismatch error exactly when the
input length differs from `SAMPLES_PER_FRAME` (and never that error when it
matches, whatever the external encoder does), and every successful decode
or packet-loss-concealment decode returns exactly one frame of
`SAMPLES_PER_FRAME` samples. -/
theorem opus_frame_lengths (encExt : List ℚ → Option (List ℕ))
    (decExt : List ℕ → Option (List ℚ)) (lostExt : Option (List ℚ))
    (s : List ℚ) (d : List ℕ) :
    (OpusEncoder.encode encExt s = Except.error EncodeError.frameLengthMismatch
       ↔ s.length ≠ SAMPLES_PER_FRAME) ∧
    (∀ out, OpusDecoder.decode decExt d = Except.ok out → out.length = SAMPLES_PER_FRAME) ∧
    (∀ out, OpusDecoder.decode_lost lostExt = Except.ok out
       → out.length = SAMPLES_PER_FRAME) := by
  refine ⟨⟨?_, ?_⟩, ?_, ?_⟩
  · intro h
    by_contra hlen
    rw [OpusEncoder.encode, if_neg (not_not_intro hlen)] at h
    cases hx : encExt s <;> rw [hx] at h <;> simp at h
  · intro hlen
    simp [OpusEncoder.encode, hlen]
  · intro out h
    rw [OpusDecoder.decode] at h
    cases hx : decExt d <;> rw [hx] at h
    · simp at h
    · simp only [Except.ok.injEq] at h
      rw [← h]
      exact write_into_frame_length _
  · intro out h
    rw [OpusDecoder.decode_lost.eq_def] at h
    cases lostExt with
    | none => simp at h
    | some w =>
      simp only [Except.ok.injEq] at h
      rw [← h]
      exact write_into_frame_length _

/-- Witness for `opus_frame_lengths` with trivial external codec stubs
and empty inputs. -/
theorem opus_frame_lengths_witness :
    (OpusEncoder.encode (fun _ => some []) [] = Except.error EncodeError.frameLengthMismatch
       ↔ ([] : List ℚ).length ≠ SAMPLES_PER_FRAME) ∧
    (∀ out, OpusDecoder.decode (fun _ => some []) [] = Except.ok out
       → out.length = SAMPLES_PER_FRAME) ∧
    (∀ out, OpusDecoder.decode_lost (some []) = Except.ok out
       → out.length = SAMPLES_PER_FRAME) :=
  opus_frame_lengths (fun _ => some []) (fun _ => some []) (some []) [] []

/-- Removing an absent key by filtering leaves the association list
unchanged. -/
theorem lookup_none_filter_ne (l : List (String × PeerEntry)) (id : String)
    (h : l.lookup id = none) : l.filter (fun p => p.1 != id) = l := by
  induction l with
  | nil => rfl
  | cons a t ih =>
    obtain ⟨k, v⟩ := a
    rw [List.lookup] at h
    by_cases hk : k = id
    · subst hk
      simp at h
    · have hbeq : (id == k) = false := beq_eq_false_iff_ne.mpr (fun hh => hk hh.symm)
      simp only [hbeq] at h
      rw [List.filter_cons]
      have hne : (((k, v) : String × PeerEntry).1 != id) = true := bne_iff_ne.mpr hk
      rw [if_pos hne, ih h]

/-- After filtering a key out, looking it up yields nothing. -/
theorem lookup_filter_ne_self (l : List (String × PeerEntry)) (id : String) :
    (l.filter (fun p => p.1 != id)).lookup id = none := by
  induction l with
  | nil => rfl
  | cons a t ih =>
    obtain ⟨k, v⟩ := a
    rw [List.filter_cons]
    by_cases hk : k = id
    · subst hk
      simp only [bne_self_eq_false, Bool.false_eq_true, if_false]
      exact ih
    · have hne : (((k, v) : String × PeerEntry).1 != id) = true := bne_iff_ne.mpr hk
      rw [if_pos hne, List.lookup]
      have hbeq : (id == k) = false := beq_eq_false_iff_ne.mpr (fun hh => hk hh.symm)
      simp only [hbeq]
      exact ih

/-- Filtering one key out does not affect lookups of other keys. -/
theorem lookup_filter_ne_other (l : List (String × PeerEntry)) (id id2 : String)
    (h : id ≠ id2) : (l.filter (fun p => p.1 != id)).lookup id2 = l.lookup id2 := by
  induction l with
  | nil => rfl
  | cons a t ih =>
    obtain ⟨k, v⟩ := a
    rw [List.filter_cons]
    by_cases hk : k = id
    · subst hk
      simp only [bne_self_eq_false, Bool.false_eq_true, if_false]
      have hbeq2 : (id2 == k) = false := beq_eq_false_iff_ne.mpr (fun hh => h hh.symm)
      simp only [List.lookup, hbeq2]
      exact ih
    · have hne : (((k, v) : String × PeerEntry).1 != id) = true := bne_iff_ne.mpr hk
      rw [if_pos hne, List.lookup, List.lookup]
      by_cases hk2 : id2 = k
      · subst hk2
        simp
      · have hbeq : (id2 == k) = false := beq_eq_false_iff_ne.mpr hk2
        simp only [hbeq, ih]

/-- C9: removing an id that is absent from the peer map is a successful
no-op returning the state unchanged; removing an existing peer deletes
exactly its entry (other ids unaffected) and hands the removed session back
for the asynchronous transport close; after removal, sending to that id
fails with the no-data-channel ("no session") error whatever the transport
would do. -/
theorem remove_peer_behaviour (st : MeshManagerState) (id : String) :
    (st.peers.lookup id = none → st.remove_peer id = (st, none)) ∧
    ((st.remove_peer id).1.peers.lookup id = none) ∧
    ((st.remove_peer id).2 = st.peers.lookup id) ∧
    (∀ id2, id ≠ id2 →
      (st.remove_peer id).1.peers.lookup id2 = st.peers.lookup id2) ∧
    (∀ sendOk, MeshManagerState.send_to_peer sendOk (st.remove_peer id).1 id
       = Except.error SendError.noDataChannel) := by
  refine ⟨?_, lookup_filter_ne_self st.peers id, rfl, ?_, ?_⟩
  · intro h
    simp only [MeshManagerState.remove_peer, lookup_none_filter_ne st.peers id h, h]
  · intro id2 h2
    exact lookup_filter_ne_other st.peers id id2 h2
  · intro sendOk
    simp [MeshManagerState.send_to_peer, MeshManagerState.remove_peer, lookup_filter_ne_self]

/-- Witness for `remove_peer_behaviour`: removing never-added peer "p3"
from a one-peer map and then sending to it. -/
theorem remove_peer_behaviour_witness :
    ((MeshManagerState.mk [("p1", ⟨some 0, "u"⟩)]).peers.lookup "p3" = none) ∧
    ((MeshManagerState.mk [("p1", ⟨some 0, "u"⟩)]).remove_peer "p3"
       = (MeshManagerState.mk [("p1", ⟨some 0, "u"⟩)], none)) ∧
    (MeshManagerState.send_to_peer (fun _ => true)
       ((MeshManagerState.mk [("p1", ⟨some 0, "u"⟩)]).remove_peer "p3").1 "p3"
       = Except.error SendError.noDataChannel) := by
  have hnone : (MeshManagerState.mk [("p1", ⟨some 0, "u"⟩)]).peers.lookup "p3" = none := by
    simp [List.lookup]
  have h := remove_peer_behaviour (MeshManagerState.mk [("p1", ⟨some 0, "u"⟩)]) "p3"
  exact ⟨hnone, h.1 hnone, h.2.2.2.2 (fun _ => true)⟩

/-- A disabled denoiser returns its input unchanged and keeps its state
exactly. -/
theorem process_disabled (f : List ℚ → List ℚ) (d : AudioDenoiser) (samples : List ℚ)
    (h : d.enabled = false) : d.process f samples = (samples, d) := by
  simp [AudioDenoiser.process, h]

/-- C7: every call made to a disabled noise suppressor returns its input
unchanged with the state untouched, so the concatenation of all outputs of
a call sequence equals the concatenation of all inputs; and disabling
clears the internal input and output buffers. -/
theorem denoiser_disabled_passthrough (f : List ℚ → List ℚ) (d : AudioDenoiser)
    (chunks : List (List ℚ)) (h : d.enabled = false) :
    (d.process_all f chunks).1.flatten = chunks.flatten ∧
    (d.process_all f chunks).2 = d ∧
    (∀ d2 : AudioDenoiser, (d2.set_enabled false).input_buffer = []
       ∧ (d2.set_enabled false).output_buffer = []) := by
  refine ⟨?_, ?_, fun d2 => by simp [AudioDenoiser.set_enabled]⟩
  all_goals
    induction chunks with
    | nil => simp [AudioDenoiser.process_all]
    | cons c cs ih =>
      simp [AudioDenoiser.process_all, process_disabled f d c h, ih]

/-- Witness for `denoiser_disabled_passthrough` on a disabled denoiser
processing two buffers through the identity frame transform. -/
theorem denoiser_disabled_passthrough_witness :
    ((AudioDenoiser.mk [] [] false 48000 []).enabled = false) ∧
    (((AudioDenoiser.mk [] [] false 48000 []).process_all id [[1], [2, 3]]).1.flatten
       = ([[1], [2, 3]] : List (List ℚ)).flatten ∧
     ((AudioDenoiser.mk [] [] false 48000 []).process_all id [[1], [2, 3]]).2
       = AudioDenoiser.mk [] [] false 48000 [] ∧
     (∀ d2 : AudioDenoiser, (d2.set_enabled false).input_buffer = []
        ∧ (d2.set_enabled false).output_buffer = [])) :=
  ⟨rfl, denoiser_disabled_passthrough id (AudioDenoiser.mk [] [] false 48000 [])
    [[1], [2, 3]] rfl⟩
